import Mathlib

/-!
Verification of the SkyHamSat satellite-tracking core against its
natural-language specification.

The development shallowly embeds the relevant parts of `SkyHamSat.py` and
`graphqt5.py`:

* times (Julian dates) and frequencies are modelled as rationals `ℚ`;
* the three-dimensional position/velocity vectors of the topocentric
  transform are modelled as triples of reals `ℝ × ℝ × ℝ`;
* skyfield event codes (`0 = rise, 1 = transit, 2 = set`) are `Fin 3`;
* satellite identifiers (name strings, only ever compared to each other
  by Python's lexicographic string order) are modelled by an
  order-isomorphic numeric code `ℕ`;
* Python code that can raise `ValueError` takes an `Except Unit`-valued
  input marking whether the fallible prefix of the `try` block failed;
* Python code that can raise `ZeroDivisionError` returns an `Option`.
-/

/-- Julian-date length of one second, `JULIAN_SEC = 1 / 86400`
(SkyHamSat.py line 54). -/
def JULIAN_SEC : ℚ := 1 / 86400

/-- The constant `300000` used by `on_auto_update_timer` as the speed of
light in km/s (rounded), consistent with the km/s slant velocity. -/
def speed_of_light_km_s : ℚ := 300000

/-- Doppler shift as computed inline in `MainApp.on_auto_update_timer`
(SkyHamSat.py lines 565-572): `-slant_velocity / 300000 * frequency`. -/
def doppler_shift (slant_velocity_km_s carrier_frequency_hz : ℚ) : ℚ :=
  -slant_velocity_km_s / speed_of_light_km_s * carrier_frequency_hz

/-- The tuple lookup `('rise', 'transit', 'set')[event]` of
`MainApp.get_next_passes` (SkyHamSat.py line 682). -/
def event_name : Fin 3 → String
  | 0 => "rise"
  | 1 => "transit"
  | 2 => "set"

/-- The `for ti, event in zip(event_times_ts, events)` loop of
`MainApp.get_next_passes` (SkyHamSat.py lines 677-685): truncates the
skyfield event stream, breaking once `passes >= number_of_passes`,
where `passes` counts appended `set` events. -/
def get_next_passes_loop (number_of_passes : ℕ) :
    ℕ → List (ℚ × Fin 3) → List (ℚ × String)
  | _, [] => []
  | passes, (ti, event) :: rest =>
    if number_of_passes ≤ passes then []
    else
      (ti, event_name event) ::
        get_next_passes_loop number_of_passes
          (if event_name event = "set" then passes + 1 else passes) rest

/-- `MainApp.get_next_passes` (SkyHamSat.py lines 662-689).  The call to
skyfield's `satellite.find_events` together with the satellite-number
lookup in the same `try` block is the `Except`-valued argument: `.error`
is the `ValueError` branch (which yields an empty `event_list`), `.ok`
carries the `(time, event-code)` pairs that `zip` iterates over. -/
def get_next_passes (number_of_passes : ℕ)
    (find_events_result : Except Unit (List (ℚ × Fin 3))) :
    List (ℚ × String) :=
  match find_events_result with
  | Except.error _ => []
  | Except.ok events => get_next_passes_loop number_of_passes 0 events

/-- Number of `'set'` events in an event list, the quantity the spec
counts complete passes by. -/
def countSet (l : List (ℚ × String)) : ℕ :=
  l.countP (fun p => decide (p.2 = "set"))

/-- The head-adjustment of `MainApp.draw_next_passes_for_selected_satellite`
(SkyHamSat.py lines 700-711): the caller returns early on an empty pass
list, and inserts `(now, 'rise')` in front when the first event is not a
rise. -/
def draw_next_passes_adjust (now_ts : ℚ) (pass_list : List (ℚ × String)) :
    List (ℚ × String) :=
  match pass_list with
  | [] => []
  | (t, name) :: rest =>
    if name ≠ "rise" then (now_ts, "rise") :: (t, name) :: rest
    else (t, name) :: rest

/-- Modelled from the spec: skyfield's `find_events`, for a satellite that
never crosses the horizon inside the search window, returns an empty
event sequence rather than raising (the library call itself is not part
of this repository's sources). -/
def find_events_never_visible : Except Unit (List (ℚ × Fin 3)) :=
  Except.ok []

/-- C1: the Doppler shift computed by the program is `-r/c * f` with
`c = 300000` km/s (the speed of light in km/s as rounded by the source,
consistent with the km/s range rate), and for a (positive) carrier
frequency an approaching satellite (negative range rate) gives a
positive frequency delta while a receding one gives a negative delta. -/
theorem doppler_shift_formula_and_sign (r f : ℚ) :
    doppler_shift r f = -r / speed_of_light_km_s * f ∧
      (0 < f →
        ((r < 0 → 0 < doppler_shift r f) ∧ (0 < r → doppler_shift r f < 0))) := by
  refine ⟨rfl, fun hf => ⟨fun hr => ?_, fun hr => ?_⟩⟩
  · have hc : (0:ℚ) < speed_of_light_km_s := by norm_num [speed_of_light_km_s]
    have hnum : (0:ℚ) < -r := by linarith
    exact mul_pos (div_pos hnum hc) hf
  · have hc : (0:ℚ) < speed_of_light_km_s := by norm_num [speed_of_light_km_s]
    have hnum : -r < (0:ℚ) := by linarith
    exact mul_neg_of_neg_of_pos (div_neg_of_neg_of_pos hnum hc) hf

/-- Witness for C1 at the concrete inputs `r = -1, f = 1` and `r = 1, f = 1`. -/
theorem doppler_shift_formula_and_sign_witness :
    (0:ℚ) < 1 ∧ 0 < doppler_shift (-1) 1 ∧ doppler_shift 1 1 < 0 :=
  ⟨by norm_num,
   ((doppler_shift_formula_and_sign (-1) 1).2 (by norm_num)).1 (by norm_num),
   ((doppler_shift_formula_and_sign 1 1).2 (by norm_num)).2 (by norm_num)⟩

theorem countSet_nil : countSet [] = 0 := rfl

theorem countSet_cons (t : ℚ) (s : String) (l : List (ℚ × String)) :
    countSet ((t, s) :: l) = countSet l + (if s = "set" then 1 else 0) := by
  by_cases h : s = "set" <;> simp [countSet, List.countP_cons, h]

theorem get_next_passes_loop_cons (N passes : ℕ) (ti : ℚ) (event : Fin 3)
    (rest : List (ℚ × Fin 3)) (hbreak : ¬N ≤ passes) :
    get_next_passes_loop N passes ((ti, event) :: rest) =
      (ti, event_name event) ::
        get_next_passes_loop N
          (if event_name event = "set" then passes + 1 else passes) rest := by
  simp [get_next_passes_loop, hbreak]

theorem get_next_passes_loop_set_count (N : ℕ) :
    ∀ (events : List (ℚ × Fin 3)) (passes : ℕ),
      countSet (get_next_passes_loop N passes events) ≤ N - passes := by
  intro events
  induction events with
  | nil => intro passes; simp [get_next_passes_loop, countSet]
  | cons e rest ih =>
    intro passes
    obtain ⟨ti, event⟩ := e
    by_cases hbreak : N ≤ passes
    · simp [get_next_passes_loop, hbreak, countSet]
    · rw [get_next_passes_loop_cons N passes ti event rest hbreak, countSet_cons]
      by_cases hset : event_name event = "set"
      · rw [if_pos hset, if_pos hset]
        have h := ih (passes + 1)
        omega
      · rw [if_neg hset, if_neg hset]
        have h := ih passes
        omega

theorem get_next_passes_loop_ends_set (N : ℕ) :
    ∀ (events : List (ℚ × Fin 3)) (passes : ℕ),
      countSet (get_next_passes_loop N passes events) = N - passes →
      get_next_passes_loop N passes events = [] ∨
        ∃ l t, get_next_passes_loop N passes events = l ++ [(t, "set")] := by
  intro events
  induction events with
  | nil => intro passes _; left; rfl
  | cons e rest ih =>
    intro passes hcount
    obtain ⟨ti, event⟩ := e
    by_cases hbreak : N ≤ passes
    · left; simp [get_next_passes_loop, hbreak]
    · have hlt : passes < N := lt_of_not_le hbreak
      rw [get_next_passes_loop_cons N passes ti event rest hbreak, countSet_cons]
        at hcount
      rw [get_next_passes_loop_cons N passes ti event rest hbreak]
      by_cases hset : event_name event = "set"
      · rw [if_pos hset, if_pos hset] at hcount
        have hle := get_next_passes_loop_set_count N rest (passes + 1)
        have hc : countSet (get_next_passes_loop N (passes + 1) rest) =
            N - (passes + 1) := by omega
        rw [if_pos hset]
        rcases ih (passes + 1) hc with hnil | ⟨l, t, hl⟩
        · right; exact ⟨[], ti, by simp [hnil, hset]⟩
        · right; exact ⟨(ti, event_name event) :: l, t, by simp [hl]⟩
      · rw [if_neg hset, if_neg hset] at hcount
        have hc : countSet (get_next_passes_loop N passes rest) = N - passes := by
          omega
        rw [if_neg hset]
        rcases ih passes hc with hnil | ⟨l, t, hl⟩
        · exfalso
          rw [hnil, countSet_nil] at hc
          omega
        · right; exact ⟨(ti, event_name event) :: l, t, by simp [hl]⟩

/-- C3: `get_next_passes` stops once `number_of_passes` complete passes
(counted by `set` events) have been found: the returned event list
contains at most `N` set events, and when it does contain `N` of them the
`N`-th set is its last element, so no event follows the `N`-th set. -/
theorem get_next_passes_stops_after_max_sets (N : ℕ)
    (fe : Except Unit (List (ℚ × Fin 3))) :
    countSet (get_next_passes N fe) ≤ N ∧
      (countSet (get_next_passes N fe) = N →
        get_next_passes N fe = [] ∨
          ∃ l t, get_next_passes N fe = l ++ [(t, "set")]) := by
  cases fe with
  | error e => exact ⟨by simp [get_next_passes, countSet], fun _ => Or.inl rfl⟩
  | ok events =>
    refine ⟨?_, fun h => ?_⟩
    · simpa using get_next_passes_loop_set_count N events 0
    · exact get_next_passes_loop_ends_set N events 0 (by simpa using h)

/-- Witness for C3 at a concrete event stream with two passes requested
down to one: the output keeps exactly one `set` and ends at it. -/
theorem get_next_passes_stops_after_max_sets_witness :
    countSet (get_next_passes 1 (Except.ok [(1, 0), (2, 1), (3, 2), (4, 0)])) ≤ 1 ∧
      (get_next_passes 1 (Except.ok [(1, 0), (2, 1), (3, 2), (4, 0)]) = [] ∨
        ∃ l t, get_next_passes 1 (Except.ok [(1, 0), (2, 1), (3, 2), (4, 0)]) =
          l ++ [(t, "set")]) :=
  ⟨(get_next_passes_stops_after_max_sets 1 _).1,
   (get_next_passes_stops_after_max_sets 1 _).2 (by rfl)⟩

/-- C4: for a satellite that never crosses the horizon in the search
window, the event-finding call returns an empty list.  `get_next_passes`
is a total function of the modelled `find_events` outcome, so no error is
raised: the never-visible case is the normal empty result, which the code
reaches through the `.ok []` branch rather than the `ValueError` branch. -/
theorem get_next_passes_empty_when_never_visible (N : ℕ) :
    get_next_passes N find_events_never_visible = [] := rfl

theorem get_next_passes_loop_take (N : ℕ) :
    ∀ (events : List (ℚ × Fin 3)) (passes : ℕ),
      ∃ n, get_next_passes_loop N passes events =
        (events.map (fun p => (p.1, event_name p.2))).take n := by
  intro events
  induction events with
  | nil => intro passes; exact ⟨0, rfl⟩
  | cons e rest ih =>
    intro passes
    obtain ⟨ti, event⟩ := e
    by_cases hbreak : N ≤ passes
    · exact ⟨0, by simp [get_next_passes_loop, hbreak]⟩
    · obtain ⟨m, hm⟩ :=
        ih (if event_name event = "set" then passes + 1 else passes)
      refine ⟨m + 1, ?_⟩
      rw [get_next_passes_loop_cons N passes ti event rest hbreak, hm]
      simp

/-- C5: within one `get_next_passes` call the returned pass events are in
non-decreasing time order, provided the underlying skyfield `find_events`
event times are (the library guarantee the spec leans on, taken as the
hypothesis `h`): the code only maps event codes to names and truncates,
both order-preserving. -/
theorem get_next_passes_times_sorted (N : ℕ) (events : List (ℚ × Fin 3))
    (h : List.Sorted (· ≤ ·) (events.map Prod.fst)) :
    List.Sorted (· ≤ ·)
      ((get_next_passes N (Except.ok events)).map Prod.fst) := by
  obtain ⟨n, hn⟩ := get_next_passes_loop_take N events 0
  have hmap : (get_next_passes N (Except.ok events)).map Prod.fst =
      (events.map Prod.fst).take n := by
    show (get_next_passes_loop N 0 events).map Prod.fst = _
    rw [hn, List.map_take, List.map_map]
    rfl
  rw [hmap]
  exact h.sublist (List.take_sublist n _)

/-- Witness for C5 at a concrete sorted three-event stream. -/
theorem get_next_passes_times_sorted_witness :
    List.Sorted (· ≤ ·)
      (([((1:ℚ), (0 : Fin 3)), (2, 1), (3, 2)]).map Prod.fst) ∧
    List.Sorted (· ≤ ·)
      ((get_next_passes 5 (Except.ok [((1:ℚ), (0 : Fin 3)), (2, 1), (3, 2)])).map
        Prod.fst) := by
  have h : List.Sorted (· ≤ ·)
      (([((1:ℚ), (0 : Fin 3)), (2, 1), (3, 2)]).map Prod.fst) := by
    simp [List.sorted_cons]
    norm_num
  exact ⟨h, get_next_passes_times_sorted 5 _ h⟩

/-- C6: the event-finding component fabricates no synthetic rise: its
output is a prefix of the (name-mapped) underlying event stream, so it
starts with whatever event actually occurs first; and it is the caller
`draw_next_passes_for_selected_satellite` that decides to treat window
start as an implicit rise, inserting `(now, 'rise')` exactly when the
first returned event is not a rise. -/
theorem no_synthetic_rise_component_caller (N : ℕ)
    (events : List (ℚ × Fin 3)) (now_ts t : ℚ) (nm : String)
    (rest : List (ℚ × String)) :
    (∃ n, get_next_passes N (Except.ok events) =
      (events.map (fun p => (p.1, event_name p.2))).take n) ∧
    (∀ (ti : ℚ) (ev : Fin 3) (tl : List (ℚ × Fin 3)), 0 < N →
      (get_next_passes N (Except.ok ((ti, ev) :: tl))).head? =
        some (ti, event_name ev)) ∧
    (nm ≠ "rise" →
      draw_next_passes_adjust now_ts ((t, nm) :: rest) =
        (now_ts, "rise") :: (t, nm) :: rest) ∧
    (nm = "rise" →
      draw_next_passes_adjust now_ts ((t, nm) :: rest) = (t, nm) :: rest) := by
  refine ⟨get_next_passes_loop_take N events 0, ?_, ?_, ?_⟩
  · intro ti ev tl hN
    have hbreak : ¬N ≤ 0 := by omega
    show (get_next_passes_loop N 0 ((ti, ev) :: tl)).head? = _
    rw [get_next_passes_loop_cons N 0 ti ev tl hbreak]
    rfl
  · intro hnm
    simp [draw_next_passes_adjust, hnm]
  · intro hnm
    simp [draw_next_passes_adjust, hnm]

/-- Witness for C6: component head preserved at a concrete stream whose
first event is a transit; the caller then inserts a rise-at-now. -/
theorem no_synthetic_rise_component_caller_witness :
    (get_next_passes 1 (Except.ok [((2:ℚ), (1 : Fin 3)), (3, 2)])).head? =
      some (2, "transit") ∧
    draw_next_passes_adjust 9 [(2, "transit"), (3, "set")] =
      (9, "rise") :: [(2, "transit"), (3, "set")] := by
  refine ⟨?_, ?_⟩
  · exact (no_synthetic_rise_component_caller 1 [] 0 0 "x" []).2.1 2 1 [(3, 2)]
      (by norm_num)
  · exact (no_synthetic_rise_component_caller 1 [] 9 2 "transit"
      [(3, "set")]).2.2.1 (by simp)

/-- Entry of `transit_list`: `[rise_tt, transit_tt, set_tt, satellite]`
(SkyHamSat.py line 463), with the satellite name modelled by its numeric
code. -/
abbrev Entry : Type := ℚ × ℚ × ℚ × ℕ

/-- Python's lexicographic comparison of the four-element lists that
`transit_list.sort()` (SkyHamSat.py line 477) orders by: rise time,
then transit time, then set time, then satellite name. -/
def entryLE (a b : Entry) : Bool :=
  decide (a.1 < b.1) ||
    (decide (a.1 = b.1) &&
      (decide (a.2.1 < b.2.1) ||
        (decide (a.2.1 = b.2.1) &&
          (decide (a.2.2.1 < b.2.2.1) ||
            (decide (a.2.2.1 = b.2.2.1) && decide (a.2.2.2 ≤ b.2.2.2))))))

/-- The `for pass_event in pass_list` loop of
`MainApp.transit_list_sorted_by_time` (SkyHamSat.py lines 463-472):
accumulates `pass_info = [rise, transit, set, sat]`, emitting an entry
each time a `set` event completes a pass. -/
def pass_infos_loop (sat : ℕ) : ℚ × ℚ × ℚ → List (ℚ × String) → List Entry
  | _, [] => []
  | info, (t, name) :: rest =>
    if name = "rise" then pass_infos_loop sat (t, info.2.1, info.2.2) rest
    else if name = "transit" then pass_infos_loop sat (info.1, t, info.2.2) rest
    else if name = "set" then
      (info.1, info.2.1, t, sat) :: pass_infos_loop sat (0, 0, 0) rest
    else pass_infos_loop sat info rest

/-- One satellite's contribution to `transit_list`
(SkyHamSat.py lines 459-475): the completed-pass entries from its pass
list, plus the `[0, 0, 0, sat]` placeholder when the pass list is empty. -/
def satellite_contribution (N : ℕ) (sat : ℕ)
    (fe : Except Unit (List (ℚ × Fin 3))) : List Entry :=
  let pass_list := get_next_passes N fe
  pass_infos_loop sat (0, 0, 0) pass_list ++
    (if pass_list = [] then [(0, 0, 0, sat)] else [])

/-- `MainApp.transit_list_sorted_by_time` (SkyHamSat.py lines 453-479)
over the filtered satellites, each given with the outcome of its
`find_events` call; `transit_list.sort()` is Python's stable sort under
lexicographic list comparison, modelled by `List.mergeSort entryLE`. -/
def transit_list_sorted_by_time (N : ℕ)
    (sats : List (ℕ × Except Unit (List (ℚ × Fin 3)))) : List Entry :=
  (sats.flatMap (fun s => satellite_contribution N s.1 s.2)).mergeSort entryLE

theorem entryLE_iff (a b : Entry) :
    entryLE a b = true ↔
      a.1 < b.1 ∨ (a.1 = b.1 ∧
        (a.2.1 < b.2.1 ∨ (a.2.1 = b.2.1 ∧
          (a.2.2.1 < b.2.2.1 ∨ (a.2.2.1 = b.2.2.1 ∧ a.2.2.2 ≤ b.2.2.2))))) := by
  simp [entryLE]

theorem entryLE_trans (a b c : Entry) (hab : entryLE a b = true)
    (hbc : entryLE b c = true) : entryLE a c = true := by
  rw [entryLE_iff] at hab hbc ⊢
  rcases hab with h1 | ⟨e1, hab⟩
  · rcases hbc with h2 | ⟨e2, hbc⟩
    · exact Or.inl (lt_trans h1 h2)
    · exact Or.inl (e2 ▸ h1)
  · rcases hbc with h2 | ⟨e2, hbc⟩
    · exact Or.inl (e1 ▸ h2)
    · refine Or.inr ⟨e1.trans e2, ?_⟩
      rcases hab with h1 | ⟨f1, hab⟩
      · rcases hbc with h2 | ⟨f2, hbc⟩
        · exact Or.inl (lt_trans h1 h2)
        · exact Or.inl (f2 ▸ h1)
      · rcases hbc with h2 | ⟨f2, hbc⟩
        · exact Or.inl (f1 ▸ h2)
        · refine Or.inr ⟨f1.trans f2, ?_⟩
          rcases hab with h1 | ⟨g1, hab⟩
          · rcases hbc with h2 | ⟨g2, hbc⟩
            · exact Or.inl (lt_trans h1 h2)
            · exact Or.inl (g2 ▸ h1)
          · rcases hbc with h2 | ⟨g2, hbc⟩
            · exact Or.inl (g1 ▸ h2)
            · exact Or.inr ⟨g1.trans g2, le_trans hab hbc⟩

theorem entryLE_total (a b : Entry) :
    (entryLE a b || entryLE b a) = true := by
  rw [Bool.or_eq_true, entryLE_iff, entryLE_iff]
  rcases lt_trichotomy a.1 b.1 with h1 | h1 | h1
  · exact Or.inl (Or.inl h1)
  · rcases lt_trichotomy a.2.1 b.2.1 with h2 | h2 | h2
    · exact Or.inl (Or.inr ⟨h1, Or.inl h2⟩)
    · rcases lt_trichotomy a.2.2.1 b.2.2.1 with h3 | h3 | h3
      · exact Or.inl (Or.inr ⟨h1, Or.inr ⟨h2, Or.inl h3⟩⟩)
      · rcases le_total a.2.2.2 b.2.2.2 with h4 | h4
        · exact Or.inl (Or.inr ⟨h1, Or.inr ⟨h2, Or.inr ⟨h3, h4⟩⟩⟩)
        · exact Or.inr (Or.inr ⟨h1.symm, Or.inr ⟨h2.symm, Or.inr ⟨h3.symm, h4⟩⟩⟩)
      · exact Or.inr (Or.inr ⟨h1.symm, Or.inr ⟨h2.symm, Or.inl h3⟩⟩)
    · exact Or.inr (Or.inr ⟨h1.symm, Or.inl h2⟩)
  · exact Or.inr (Or.inl h1)

theorem entryLE_fst_le (a b : Entry) (h : entryLE a b = true) : a.1 ≤ b.1 := by
  rw [entryLE_iff] at h
  rcases h with h | ⟨e, _⟩
  · exact le_of_lt h
  · exact le_of_eq e

/-- C8 (amended): the aggregated multi-satellite pass list is sorted into
non-decreasing order of rise time, but equal rise times are tie-broken by
the full lexicographic comparison of the `[rise, transit, set, name]`
entries — transit time first, then set time, and only then the satellite
identifier.  The output is pairwise `entryLE`-ordered and its rise-time
projection is non-decreasing. -/
theorem transit_list_lex_sorted (N : ℕ)
    (sats : List (ℕ × Except Unit (List (ℚ × Fin 3)))) :
    List.Pairwise (fun a b : Entry => entryLE a b = true)
      (transit_list_sorted_by_time N sats) ∧
    List.Sorted (· ≤ ·)
      ((transit_list_sorted_by_time N sats).map (fun e : Entry => e.1)) := by
  have hpw : List.Pairwise (fun a b : Entry => entryLE a b = true)
      (transit_list_sorted_by_time N sats) :=
    List.sorted_mergeSort entryLE_trans entryLE_total _
  exact ⟨hpw, List.pairwise_map.mpr (hpw.imp fun h => entryLE_fst_le _ _ h)⟩

/-- C8 counterexample: two satellites with equal rise times but
oppositely ordered transit times and identifiers.  Satellite `0` has
events rise 1, transit 5, set 6 and satellite `1` has rise 1, transit 2,
set 3; the code orders satellite `1` first (smaller transit time), while
the claimed rise-then-identifier order would put satellite `0` first, so
the output is not sorted by (rise time, then identifier). -/
theorem transit_list_tiebreak_counterexample :
    transit_list_sorted_by_time 1
        [(0, Except.ok [((1:ℚ), (0 : Fin 3)), (5, 1), (6, 2)]),
         (1, Except.ok [((1:ℚ), (0 : Fin 3)), (2, 1), (3, 2)])] =
      [(1, 2, 3, 1), (1, 5, 6, 0)] ∧
    ¬ List.Pairwise
        (fun a b : Entry => a.1 < b.1 ∨ (a.1 = b.1 ∧ a.2.2.2 ≤ b.2.2.2))
        (transit_list_sorted_by_time 1
          [(0, Except.ok [((1:ℚ), (0 : Fin 3)), (5, 1), (6, 2)]),
           (1, Except.ok [((1:ℚ), (0 : Fin 3)), (2, 1), (3, 2)])]) := by
  have heval : transit_list_sorted_by_time 1
      [(0, Except.ok [((1:ℚ), (0 : Fin 3)), (5, 1), (6, 2)]),
       (1, Except.ok [((1:ℚ), (0 : Fin 3)), (2, 1), (3, 2)])] =
      [(1, 2, 3, 1), (1, 5, 6, 0)] := by
    simp [transit_list_sorted_by_time, satellite_contribution, get_next_passes,
      get_next_passes_loop, event_name, pass_infos_loop, entryLE,
      List.mergeSort, List.merge, List.splitInTwo, List.splitAt,
      List.splitAt.go]
    norm_num
  refine ⟨heval, ?_⟩
  rw [heval]
  intro h
  have := List.rel_of_pairwise_cons h (List.mem_singleton.mpr rfl)
  rcases this with h1 | ⟨_, h2⟩
  · exact absurd h1 (by norm_num)
  · exact absurd h2 (by norm_num)

/-- Dot product of two 3-vectors, `np.dot(velocity, pos)` in
`MainApp.get_alt_azimuth` (SkyHamSat.py line 658). -/
def dot3 (v p : ℝ × ℝ × ℝ) : ℝ :=
  v.1 * p.1 + v.2.1 * p.2.1 + v.2.2 * p.2.2

/-- Euclidean norm of a 3-vector, `np.linalg.norm(pos)`. -/
noncomputable def norm3 (p : ℝ × ℝ × ℝ) : ℝ :=
  Real.sqrt (dot3 p p)

/-- The slant velocity `d = np.dot(velocity, pos) / np.linalg.norm(pos)`
of `MainApp.get_alt_azimuth` (SkyHamSat.py line 658). -/
noncomputable def slant_velocity (velocity pos : ℝ × ℝ × ℝ) : ℝ :=
  dot3 velocity pos / norm3 pos

/-- The data skyfield's topocentric object supplies to
`MainApp.get_alt_azimuth`: `altaz()` altitude and azimuth, the
observer-relative position `position.km` and velocity
`velocity.km_per_s`. -/
structure Topocentric where
  alt : ℝ
  az : ℝ
  pos : ℝ × ℝ × ℝ
  velocity : ℝ × ℝ × ℝ

/-- `MainApp.get_alt_azimuth` (SkyHamSat.py lines 643-660): the
`ValueError` branch of the satellite lookup returns the zero fallback
`(Angle(degrees=0), Angle(degrees=0), 0)`; otherwise the function
returns altitude, azimuth and the slant velocity. -/
noncomputable def get_alt_azimuth (result : Except Unit Topocentric) :
    ℝ × ℝ × ℝ :=
  match result with
  | Except.error _ => (0, 0, 0)
  | Except.ok t => (t.alt, t.az, slant_velocity t.velocity t.pos)

theorem dot3_self_pos (p : ℝ × ℝ × ℝ) (hp : p ≠ (0, 0, 0)) : 0 < dot3 p p := by
  have hne : p.1 ≠ 0 ∨ p.2.1 ≠ 0 ∨ p.2.2 ≠ 0 := by
    by_contra h
    push_neg at h
    obtain ⟨h1, h2, h3⟩ := h
    exact hp (Prod.ext_iff.mpr ⟨h1, Prod.ext_iff.mpr ⟨h2, h3⟩⟩)
  unfold dot3
  rcases hne with h | h | h
  · nlinarith [mul_self_nonneg p.2.1, mul_self_nonneg p.2.2, mul_self_pos.mpr h]
  · nlinarith [mul_self_nonneg p.1, mul_self_nonneg p.2.2, mul_self_pos.mpr h]
  · nlinarith [mul_self_nonneg p.1, mul_self_nonneg p.2.1, mul_self_pos.mpr h]

theorem div_pos_iff_pos_num (a s : ℝ) (hs : 0 < s) : 0 < a / s ↔ 0 < a := by
  rw [div_pos_iff]
  constructor
  · rintro (⟨h, _⟩ | ⟨_, h⟩)
    · exact h
    · linarith
  · intro h
    exact Or.inl ⟨h, hs⟩

theorem div_neg_iff_neg_num (a s : ℝ) (hs : 0 < s) : a / s < 0 ↔ a < 0 := by
  rw [div_neg_iff]
  constructor
  · rintro (⟨_, h⟩ | ⟨h, _⟩)
    · linarith
    · exact h
  · intro h
    exact Or.inr ⟨h, hs⟩

/-- C7: the returned range-rate is the projection of the observer-relative
velocity onto the observer-to-satellite unit vector — the dot product of
velocity with position divided by the norm of position — and it is the
derivative at the observation instant of the observer-satellite distance
along the straight-line motion, so it is positive exactly when the
satellite recedes (range increasing) and negative exactly when it
approaches. -/
theorem slant_velocity_is_range_rate (v p : ℝ × ℝ × ℝ) (hp : p ≠ (0, 0, 0)) :
    slant_velocity v p = dot3 v p / norm3 p ∧
    HasDerivAt
      (fun t : ℝ =>
        norm3 (p.1 + t * v.1, p.2.1 + t * v.2.1, p.2.2 + t * v.2.2))
      (slant_velocity v p) 0 ∧
    (0 < slant_velocity v p ↔ 0 < dot3 v p) ∧
    (slant_velocity v p < 0 ↔ dot3 v p < 0) := by
  have hd : 0 < dot3 p p := dot3_self_pos p hp
  have hs : 0 < Real.sqrt (dot3 p p) := Real.sqrt_pos.mpr hd
  refine ⟨rfl, ?_, ?_, ?_⟩
  · have h1 : HasDerivAt (fun t : ℝ => p.1 + t * v.1) v.1 0 := by
      simpa using ((hasDerivAt_id (0:ℝ)).mul_const v.1).const_add p.1
    have h2 : HasDerivAt (fun t : ℝ => p.2.1 + t * v.2.1) v.2.1 0 := by
      simpa using ((hasDerivAt_id (0:ℝ)).mul_const v.2.1).const_add p.2.1
    have h3 : HasDerivAt (fun t : ℝ => p.2.2 + t * v.2.2) v.2.2 0 := by
      simpa using ((hasDerivAt_id (0:ℝ)).mul_const v.2.2).const_add p.2.2
    have hq := ((h1.mul h1).add (h2.mul h2)).add (h3.mul h3)
    have hg0 : (p.1 + 0 * v.1) * (p.1 + 0 * v.1) +
        (p.2.1 + 0 * v.2.1) * (p.2.1 + 0 * v.2.1) +
        (p.2.2 + 0 * v.2.2) * (p.2.2 + 0 * v.2.2) = dot3 p p := by
      unfold dot3; ring
    have hne0 : (p.1 + 0 * v.1) * (p.1 + 0 * v.1) +
        (p.2.1 + 0 * v.2.1) * (p.2.1 + 0 * v.2.1) +
        (p.2.2 + 0 * v.2.2) * (p.2.2 + 0 * v.2.2) ≠ 0 := by
      rw [hg0]; exact hd.ne'
    have hcomp := hq.sqrt hne0
    have hfun : (fun t : ℝ =>
        norm3 (p.1 + t * v.1, p.2.1 + t * v.2.1, p.2.2 + t * v.2.2)) =
        (fun t : ℝ => Real.sqrt ((p.1 + t * v.1) * (p.1 + t * v.1) +
          (p.2.1 + t * v.2.1) * (p.2.1 + t * v.2.1) +
          (p.2.2 + t * v.2.2) * (p.2.2 + t * v.2.2))) := by
      funext t
      simp [norm3, dot3]
    rw [hfun]
    convert hcomp using 1
    rw [hg0, slant_velocity, norm3]
    unfold dot3
    field_simp
    ring
  · rw [slant_velocity, norm3]
    exact div_pos_iff_pos_num _ _ hs
  · rw [slant_velocity, norm3]
    exact div_neg_iff_neg_num _ _ hs

/-- Witness for C7 at `v = p = (1, 0, 0)`. -/
theorem slant_velocity_is_range_rate_witness :
    ((1, 0, 0) : ℝ × ℝ × ℝ) ≠ (0, 0, 0) ∧
      (0 < slant_velocity (1, 0, 0) (1, 0, 0) ↔
        0 < dot3 (1, 0, 0) (1, 0, 0)) := by
  have hne : ((1, 0, 0) : ℝ × ℝ × ℝ) ≠ (0, 0, 0) := by
    simp [Prod.ext_iff]
  exact ⟨hne, (slant_velocity_is_range_rate (1, 0, 0) (1, 0, 0) hne).2.2.1⟩

/-- C9: a propagation/transform failure (the `ValueError` branch) is local
to the one satellite being computed: `get_next_passes` maps it to an
empty event list, `get_alt_azimuth` to the zero observation
`(0, 0, 0)`, the failing satellite contributes exactly its
`[0, 0, 0, sat]` placeholder row, and every entry contributed by any
satellite of the batch still reaches the final aggregated list — the
iteration over the remaining satellites continues. -/
theorem batch_failures_are_local :
    (∀ (N : ℕ) (e : Unit), get_next_passes N (Except.error e) = []) ∧
    get_alt_azimuth (Except.error ()) = (0, 0, 0) ∧
    (∀ (N sat : ℕ) (e : Unit),
      satellite_contribution N sat (Except.error e) = [(0, 0, 0, sat)]) ∧
    (∀ (N : ℕ) (sats : List (ℕ × Except Unit (List (ℚ × Fin 3))))
        (s : ℕ) (fe : Except Unit (List (ℚ × Fin 3))) (entry : Entry),
      (s, fe) ∈ sats → entry ∈ satellite_contribution N s fe →
        entry ∈ transit_list_sorted_by_time N sats) := by
  refine ⟨fun N e => rfl, rfl, fun N sat e => rfl, ?_⟩
  intro N sats s fe entry hmem hentry
  rw [transit_list_sorted_by_time, List.mem_mergeSort, List.mem_flatMap]
  exact ⟨(s, fe), hmem, hentry⟩

/-- Witness for C9: a two-satellite batch where the first satellite's
lookup fails; the second satellite's completed pass still reaches the
aggregated list, and the failed one contributes its placeholder row. -/
theorem batch_failures_are_local_witness :
    ((1 : ℕ), Except.ok [((1:ℚ), (0 : Fin 3)), (2, 1), (3, 2)]) ∈
      [((0 : ℕ), (Except.error () : Except Unit (List (ℚ × Fin 3)))),
       (1, Except.ok [((1:ℚ), (0 : Fin 3)), (2, 1), (3, 2)])] ∧
    ((1:ℚ), (2:ℚ), (3:ℚ), (1 : ℕ)) ∈
      satellite_contribution 1 1 (Except.ok [((1:ℚ), (0 : Fin 3)), (2, 1), (3, 2)]) ∧
    ((1:ℚ), (2:ℚ), (3:ℚ), (1 : ℕ)) ∈
      transit_list_sorted_by_time 1
        [((0 : ℕ), (Except.error () : Except Unit (List (ℚ × Fin 3)))),
         (1, Except.ok [((1:ℚ), (0 : Fin 3)), (2, 1), (3, 2)])] := by
  have hmem : ((1 : ℕ), Except.ok [((1:ℚ), (0 : Fin 3)), (2, 1), (3, 2)]) ∈
      [((0 : ℕ), (Except.error () : Except Unit (List (ℚ × Fin 3)))),
       (1, Except.ok [((1:ℚ), (0 : Fin 3)), (2, 1), (3, 2)])] := by
    simp
  have hentry : ((1:ℚ), (2:ℚ), (3:ℚ), (1 : ℕ)) ∈
      satellite_contribution 1 1
        (Except.ok [((1:ℚ), (0 : Fin 3)), (2, 1), (3, 2)]) := by
    simp [satellite_contribution, get_next_passes, get_next_passes_loop,
      event_name, pass_infos_loop]
  exact ⟨hmem, hentry,
    batch_failures_are_local.2.2.2 1 _ 1 _ _ hmem hentry⟩

/-- The `while calc_time < setting_time` sampling loop of
`MainApp.create_pass_line` (SkyHamSat.py lines 619-636), modelled on the
sequence of sampled times: each iteration appends one trajectory point at
`calc_time` and advances by `JULIAN_SEC * interval`.  The fuel argument
only bounds the recursion; `pass_line_times` passes the exact iteration
count of the loop, and `mem_pass_line_times_fuel` shows any sufficient
fuel yields the same sampled set, so the model does not cut the loop
short. -/
def pass_line_times_fuel (setting_time interval : ℚ) : ℕ → ℚ → List ℚ
  | 0, _ => []
  | fuel + 1, calc_time =>
    if calc_time < setting_time then
      calc_time ::
        pass_line_times_fuel setting_time interval fuel
          (calc_time + JULIAN_SEC * interval)
    else []

/-- Sampled times of `MainApp.create_pass_line`, starting from
`rise_time.tt` (SkyHamSat.py line 619). -/
def pass_line_times (rise_time setting_time interval : ℚ) : List ℚ :=
  pass_line_times_fuel setting_time interval
    (Nat.ceil ((setting_time - rise_time) / (JULIAN_SEC * interval))) rise_time

theorem mem_pass_line_times_fuel (s i : ℚ) (hi : 0 < JULIAN_SEC * i) :
    ∀ (n : ℕ) (t x : ℚ), Nat.ceil ((s - t) / (JULIAN_SEC * i)) ≤ n →
      (x ∈ pass_line_times_fuel s i n t ↔
        ∃ k : ℕ, x = t + k * (JULIAN_SEC * i) ∧ x < s) := by
  intro n
  induction n with
  | zero =>
    intro t x hce
    have hst : s ≤ t := by
      by_contra hlt
      push_neg at hlt
      have hpos : 0 < (s - t) / (JULIAN_SEC * i) := div_pos (by linarith) hi
      have := Nat.ceil_pos.mpr hpos
      omega
    constructor
    · intro hx
      simp [pass_line_times_fuel] at hx
    · rintro ⟨k, rfl, hxs⟩
      have hk : (0:ℚ) ≤ k * (JULIAN_SEC * i) := by positivity
      linarith
  | succ n ih =>
    intro t x hce
    by_cases hts : t < s
    · have hceil : Nat.ceil ((s - (t + JULIAN_SEC * i)) / (JULIAN_SEC * i)) ≤ n := by
        rw [Nat.ceil_le]
        have harg : (s - (t + JULIAN_SEC * i)) / (JULIAN_SEC * i) =
            (s - t) / (JULIAN_SEC * i) - 1 := by
          field_simp
          ring
        have h1 : (s - t) / (JULIAN_SEC * i) ≤ ((n + 1 : ℕ) : ℚ) := by
          rw [← Nat.ceil_le]
          exact hce
        rw [harg]
        push_cast at h1 ⊢
        linarith
      simp only [pass_line_times_fuel, if_pos hts, List.mem_cons]
      rw [ih (t + JULIAN_SEC * i) x hceil]
      constructor
      · rintro (rfl | ⟨k, rfl, hxs⟩)
        · exact ⟨0, by norm_num, hts⟩
        · exact ⟨k + 1, by push_cast; ring, hxs⟩
      · rintro ⟨k, rfl, hxs⟩
        cases k with
        | zero => left; norm_num
        | succ k => right; exact ⟨k, by push_cast; ring, hxs⟩
    · simp only [pass_line_times_fuel, if_neg hts]
      constructor
      · intro hx
        simp at hx
      · rintro ⟨k, rfl, hxs⟩
        have hk : (0:ℚ) ≤ k * (JULIAN_SEC * i) := by positivity
        push_neg at hts
        linarith

/-- C2 (amended): for a positive step the pass line walks from `rise` in
fixed `JULIAN_SEC * interval` steps, sampling exactly the times
`rise + k * step` that lie strictly before `set`; the terminal point at
the set time itself is NOT sampled — the loop condition
`calc_time < setting_time` truncates it. -/
theorem pass_line_times_mem_iff (rise_time setting_time interval x : ℚ)
    (hpos : 0 < interval) :
    (x ∈ pass_line_times rise_time setting_time interval ↔
      ∃ k : ℕ, x = rise_time + k * (JULIAN_SEC * interval) ∧
        x < setting_time) ∧
    setting_time ∉ pass_line_times rise_time setting_time interval := by
  have hstep : 0 < JULIAN_SEC * interval := by
    have hj : (0:ℚ) < JULIAN_SEC := by norm_num [JULIAN_SEC]
    exact mul_pos hj hpos
  constructor
  · exact mem_pass_line_times_fuel setting_time interval hstep _ rise_time x
      le_rfl
  · intro hs
    obtain ⟨k, _, hlt⟩ :=
      (mem_pass_line_times_fuel setting_time interval hstep _ rise_time
        setting_time le_rfl).mp hs
    exact absurd hlt (lt_irrefl _)

/-- Witness for C2 (amended) at `rise = 0`, `set = 1` (one Julian day),
`interval = 86400` s: the rise time is sampled, the set time is not. -/
theorem pass_line_times_mem_iff_witness :
    (0:ℚ) < 86400 ∧ (0:ℚ) ∈ pass_line_times 0 1 86400 ∧
      (1:ℚ) ∉ pass_line_times 0 1 86400 :=
  ⟨by norm_num,
   (pass_line_times_mem_iff 0 1 86400 0 (by norm_num)).1.mpr
     ⟨0, by norm_num, by norm_num⟩,
   (pass_line_times_mem_iff 0 1 86400 1 (by norm_num)).2⟩

/-- C2 counterexample: rise `0` strictly before set `3/2` (Julian days)
and positive step `86400` s (one Julian day): the sampled times are
`[0, 1]` only; the final point at the set time `3/2` is NOT included even
though it falls short of a full step past the last sampled point `1` —
the terminal sample is truncated, contradicting the claim. -/
theorem pass_line_final_point_truncated :
    (0:ℚ) < 3/2 ∧ (0:ℚ) < 86400 ∧
    pass_line_times 0 (3/2) 86400 = [0, 1] ∧
    ((3:ℚ)/2) ∉ pass_line_times 0 (3/2) 86400 ∧
    (3:ℚ)/2 - 1 < JULIAN_SEC * 86400 := by
  have hstep : JULIAN_SEC * (86400:ℚ) = 1 := by norm_num [JULIAN_SEC]
  have harg : (((3:ℚ)/2) - 0) / (JULIAN_SEC * 86400) = 3/2 := by
    rw [hstep]
    norm_num
  have hceil : Nat.ceil ((((3:ℚ)/2) - 0) / (JULIAN_SEC * 86400)) = 2 := by
    rw [harg, Nat.ceil_eq_iff (by norm_num)]
    push_cast
    norm_num
  have heq : pass_line_times 0 (3/2) 86400 = [0, 1] := by
    rw [pass_line_times, hceil]
    norm_num [pass_line_times_fuel, JULIAN_SEC]
  refine ⟨by norm_num, by norm_num, heq, ?_, by norm_num [JULIAN_SEC]⟩
  rw [heq]
  intro h
  rcases List.mem_cons.mp h with h1 | h1
  · norm_num at h1
  · rcases List.mem_cons.mp h1 with h2 | h2
    · norm_num at h2
    · simp at h2

/-- The attributes of `graphqt5.Graph` (and its subclass `Polar`) that the
coordinate transforms read. -/
structure GraphState where
  xmin : ℚ
  xmax : ℚ
  ymin : ℚ
  ymax : ℚ
  xgrids : ℤ
  ygrids : ℤ
  image_size_x : ℚ
  image_size_y : ℚ

/-- The normalisation in `Graph.__init__` (graphqt5.py lines 105-131),
under the comment `avoid division by zero errors`: a degenerate x-range
is reset to `[0, 1]`; a degenerate y-range is reset to `[0, ymax]` when
`ymax > 0` and otherwise to `[ymin, 0]`; non-positive grid counts are
reset to `1`. -/
def Graph_init (xmin xmax ymin ymax : ℚ) (xgrids ygrids : ℤ)
    (size_x size_y : ℚ) : GraphState :=
  { xmin := if xmax - xmin = 0 then 0 else xmin
    xmax := if xmax - xmin = 0 then 1 else xmax
    ymin := if ymax - ymin = 0 then (if 0 < ymax then 0 else ymin) else ymin
    ymax := if ymax - ymin = 0 then (if 0 < ymax then ymax else 0) else ymax
    xgrids := if xgrids ≤ 0 then 1 else xgrids
    ygrids := if ygrids ≤ 0 then 1 else ygrids
    image_size_x := size_x
    image_size_y := size_y }

/-- The identical normalisation in `Polar.__init__`
(graphqt5.py lines 775-801), with `r` in the x slots and `theta` in the
y slots. -/
def Polar_init (r_min r_max theta_min theta_max : ℚ)
    (r_circles theta_spokes : ℤ) (size_x size_y : ℚ) : GraphState :=
  { xmin := if r_max - r_min = 0 then 0 else r_min
    xmax := if r_max - r_min = 0 then 1 else r_max
    ymin := if theta_max - theta_min = 0 then
        (if 0 < theta_max then 0 else theta_min) else theta_min
    ymax := if theta_max - theta_min = 0 then
        (if 0 < theta_max then theta_max else 0) else theta_max
    xgrids := if r_circles ≤ 0 then 1 else r_circles
    ygrids := if theta_spokes ≤ 0 then 1 else theta_spokes
    image_size_x := size_x
    image_size_y := size_y }

/-- `Graph.tx` (graphqt5.py lines 137-147); `none` is Python's
`ZeroDivisionError` on `float(self.xmax - self.xmin)`. -/
def GraphState.tx (g : GraphState) (x : ℚ) : Option ℚ :=
  if g.xmax - g.xmin = 0 then none
  else some (g.image_size_x / (g.xmax - g.xmin) * (x - g.xmin))

/-- `Graph.ty` (graphqt5.py lines 149-163). -/
def GraphState.ty (g : GraphState) (y : ℚ) : Option ℚ :=
  if g.ymax - g.ymin = 0 then none
  else some (g.image_size_y - g.image_size_y / (g.ymax - g.ymin) * (y - g.ymin))

/-- `Polar.pRad` (graphqt5.py lines 906-917). -/
def GraphState.pRad (g : GraphState) (r : ℚ) : Option ℚ :=
  if g.xmax - g.xmin = 0 then none
  else some (min g.image_size_x g.image_size_y / 2 *
    ((g.xmax - r) / (g.xmax - g.xmin)))

/-- C10's failing input: constructing a `Graph` with `ymin = ymax = 0`
(the `ymax > 0` guard excludes the boundary) leaves the normalised
y-range degenerate at `[0, 0]`, so `ty` hits the zero denominator and
raises, contradicting the claim that the normalisation makes `tx`, `ty`
and `pRad` total on every constructed instance.  (`tx` and `pRad` do
remain total: the x-range reset to `[0, 1]` is never degenerate.) -/
theorem graph_ty_divides_by_zero_at_degenerate_y :
    (Graph_init 0 1000 0 0 10 10 500 500).ymax -
        (Graph_init 0 1000 0 0 10 10 500 500).ymin = 0 ∧
    (Graph_init 0 1000 0 0 10 10 500 500).ty 5 = none ∧
    (∀ (xmin xmax ymin ymax size_x size_y x : ℚ) (xg yg : ℤ),
      ((Graph_init xmin xmax ymin ymax xg yg size_x size_y).tx x).isSome =
        true) ∧
    (∀ (rmin rmax tmin tmax size_x size_y r : ℚ) (rc tsp : ℤ),
      ((Polar_init rmin rmax tmin tmax rc tsp size_x size_y).pRad r).isSome =
        true) := by
  refine ⟨by norm_num [Graph_init], by norm_num [Graph_init, GraphState.ty],
    ?_, ?_⟩
  · intro xmin xmax ymin ymax size_x size_y x xg yg
    rw [GraphState.tx]
    by_cases h : xmax - xmin = 0
    · simp [Graph_init, h]
    · simp [Graph_init, h, sub_eq_zero]
  · intro rmin rmax tmin tmax size_x size_y r rc tsp
    rw [GraphState.pRad]
    by_cases h : rmax - rmin = 0
    · simp [Polar_init, h]
    · simp [Polar_init, h, sub_eq_zero]
